import Mathlib

/-!
Verification development for the routini adaptive load-balancing core.

The Rust sources are shallowly embedded:
machine integers (`usize`/`u64`) become `Nat` with explicit `% 2^64` where
wrap-around matters; `f32`/`f64` metric values become exact rationals `ℚ`
(the claims and counterexamples below only involve values and operations on
which IEEE arithmetic is exact, such as small dyadic rationals, so the
rational model coincides with the float semantics there); fallible or
panicking constructions return `Option`.

Sources embedded (paths relative to the repository root):
- src/routini/src/adaptive_loadbalancer/decision_engine.rs
- src/routini/src/adaptive_loadbalancer/backend_metrics.rs
- src/routini/src/load_balancing/strategy/utils.rs and weighted.rs
- src/routini/src/load_balancing/strategy/fewest_connections.rs
- src/routini/src/load_balancing/strategy/fastest_server.rs
- src/routini/src/adaptive_load_balancing/adaptive_load_balancer.rs

The `Backend` type itself (endpoint identity, weight, stable hash key,
attached metrics handle) is declared in a module that only re-exports it;
it is modelled from the spec, section 3 "Data model".
-/

namespace Routini

/-! Definitions: the embedded data model, decision engine, metrics,
selector builders and iterators, together with the spec-side comparison
definitions used by refutations and amendments. -/

/-- Modelled from the spec: the `Backend` data type (its defining module is
not among the provided sources; only its users are). Per spec section 3 a
backend has an upstream endpoint, an integer weight, a stable 64-bit hash
key derived from the endpoint, and an optional metrics handle. The metrics
handle is represented by its two read queries `active_connections` and
`average_latency` (absent handle or absent signal both give `none`, exactly
what the engine and the selector builders observe). -/
structure Backend where
  endpoint : Nat
  weight : Nat
  hashKey : Nat
  activeConnections : Option Nat
  averageLatency : Option ℚ
  deriving DecidableEq, Repr

/-- Embedding of the strategy descriptor enum `Adaptive`
(src/routini/src/load_balancing/strategy/adaptive.rs). -/
inductive Adaptive where
  | RoundRobin
  | Random
  | FNVHash
  | Consistent
  | FewestConnections
  | FastestServer
  deriving DecidableEq, Repr

/-- Exact value of Rust `f32::MIN`, the seed of the latency max fold in
`DecisionEngine::should_use_fastest_server`. -/
def f32Min : ℚ := -(2 ^ 128 - 2 ^ 104)

/-- Exact value of Rust `f32::MAX`, the seed of the latency min fold in
`DecisionEngine::should_use_fastest_server`. -/
def f32Max : ℚ := 2 ^ 128 - 2 ^ 104

/-- Embedding of the configuration fields of `DecisionEngine`
(src/routini/src/adaptive_loadbalancer/decision_engine.rs, struct fields).
The evaluation frequency is irrelevant to the per-tick function and omitted. -/
structure DecisionConfig where
  connectionsDivergenceRatio : ℚ
  latencyDivergenceRatio : ℚ
  minNrOfConnections : Nat
  deriving DecidableEq, Repr

/-- Default configuration from src/routini/src/utils/constants.rs
(connections ratio 1.2, latency ratio 2.0, min connections 1000). -/
def defaultConfig : DecisionConfig :=
  { connectionsDivergenceRatio := 6 / 5
    latencyDivergenceRatio := 2
    minNrOfConnections := 1000 }

/-- Embedding of `DecisionEngine::should_use_fastest_server`
(decision_engine.rs lines 90 to 111): below two backends the trigger is off;
otherwise fold max over `average_latency().unwrap_or(0.0)` seeded with
`f32::MIN`, fold min seeded with `f32::MAX`, set the ratio to `max / min`
when `min > 0` and to `1.0` otherwise, and fire when the ratio exceeds the
configured latency divergence ratio. -/
def shouldUseFastestServer (cfg : DecisionConfig) (backends : List Backend) : Bool :=
  if backends.length < 2 then false
  else
    let lats := backends.map (fun b => b.averageLatency.getD 0)
    let mx := lats.foldl max f32Min
    let mn := lats.foldl min f32Max
    if 0 < mn then decide (cfg.latencyDivergenceRatio < mx / mn)
    else decide (cfg.latencyDivergenceRatio < 1)

/-- Embedding of the ratio test at the end of
`DecisionEngine::should_use_fewest_connections` (decision_engine.rs lines
138 to 147). The Rust code computes `max as f32 / min as f32`; when `min`
is zero that float division gives positive infinity for `max > 0` (which
exceeds every finite threshold) and NaN for `max = 0` (which exceeds
nothing), reflected here by the explicit zero case. -/
def connectionRatioExceeds (cfg : DecisionConfig) (mx mn : Nat) : Bool :=
  if cfg.minNrOfConnections ≤ mx then
    if mn = 0 then decide (mx ≠ 0)
    else decide (cfg.connectionsDivergenceRatio < (mx : ℚ) / (mn : ℚ))
  else decide (cfg.connectionsDivergenceRatio < 1)

/-- Embedding of `DecisionEngine::should_use_fewest_connections`
(decision_engine.rs lines 113 to 148): below two backends the trigger is
off; `filter_map` keeps only the backends whose `active_connections` query
answers, and if none answers the trigger is off (`reduce` returns `None`);
otherwise the max and min of the answering backends feed the ratio test. -/
def shouldUseFewestConnections (cfg : DecisionConfig) (backends : List Backend) : Bool :=
  if backends.length < 2 then false
  else
    match backends.filterMap Backend.activeConnections with
    | [] => false
    | c :: rest => connectionRatioExceeds cfg (rest.foldl Nat.max c) (rest.foldl Nat.min c)

/-- Embedding of `DecisionEngine::evaluate_strategy` (decision_engine.rs
lines 27 to 88), branch for branch. Note the order in the `FastestServer`
arm: the source consults the connection trigger before the latency trigger
there, and the hash and random arms fall back to themselves. -/
def evaluateStrategy (cfg : DecisionConfig) (currentStrategy : Adaptive)
    (backends : List Backend) : Adaptive :=
  match currentStrategy with
  | .FastestServer =>
      if shouldUseFewestConnections cfg backends then .FewestConnections
      else if shouldUseFastestServer cfg backends then .FastestServer
      else .RoundRobin
  | .FewestConnections =>
      if shouldUseFastestServer cfg backends then .FastestServer
      else if shouldUseFewestConnections cfg backends then .FewestConnections
      else .RoundRobin
  | .FNVHash =>
      if shouldUseFastestServer cfg backends then .FastestServer
      else if shouldUseFewestConnections cfg backends then .FewestConnections
      else .FNVHash
  | .RoundRobin =>
      if shouldUseFastestServer cfg backends then .FastestServer
      else if shouldUseFewestConnections cfg backends then .FewestConnections
      else .RoundRobin
  | .Random =>
      if shouldUseFastestServer cfg backends then .FastestServer
      else if shouldUseFewestConnections cfg backends then .FewestConnections
      else .Random
  | .Consistent =>
      if shouldUseFastestServer cfg backends then .FastestServer
      else if shouldUseFewestConnections cfg backends then .FewestConnections
      else .Consistent

/-- Spec-side definition for claim C1, following the claim's words: check
the two triggers in priority order with latency first, and when neither
fires return the configured default strategy (RoundRobin unless otherwise
set), regardless of the current strategy. To be compared against
`evaluateStrategy`. -/
def claimEvaluate (cfg : DecisionConfig) (defaultStrategy : Adaptive)
    (backends : List Backend) : Adaptive :=
  if shouldUseFastestServer cfg backends then .FastestServer
  else if shouldUseFewestConnections cfg backends then .FewestConnections
  else defaultStrategy

/-- Spec-side definition for the amended claim C1: from `FastestServer` the
connection trigger is consulted first (so when both triggers fire the engine
moves to `FewestConnections`), from every other strategy the latency trigger
is consulted first; when neither trigger fires, `FastestServer` and
`FewestConnections` fall back to `RoundRobin` while every other strategy is
kept unchanged (there is no configured-default fallback). -/
def amendedEvaluate (cfg : DecisionConfig) (currentStrategy : Adaptive)
    (backends : List Backend) : Adaptive :=
  match currentStrategy with
  | .FastestServer =>
      if shouldUseFewestConnections cfg backends then .FewestConnections
      else if shouldUseFastestServer cfg backends then .FastestServer
      else .RoundRobin
  | .FewestConnections =>
      if shouldUseFastestServer cfg backends then .FastestServer
      else if shouldUseFewestConnections cfg backends then .FewestConnections
      else .RoundRobin
  | cur =>
      if shouldUseFastestServer cfg backends then .FastestServer
      else if shouldUseFewestConnections cfg backends then .FewestConnections
      else cur

/-- Backend with both metric queries answering zero, used by concrete
evaluations below. -/
def quietBackend (ep : Nat) : Backend :=
  { endpoint := ep, weight := 1, hashKey := ep
    activeConnections := some 0, averageLatency := some 0 }

/-- Backends for the C5 counterexample: one heavily loaded backend, one
whose connection metric is absent, one lightly loaded backend; latencies
all zero so the latency trigger stays off. -/
def mixedBackends : List Backend :=
  [{ endpoint := 1, weight := 1, hashKey := 1
     activeConnections := some 2000, averageLatency := some 0 },
   { endpoint := 2, weight := 1, hashKey := 2
     activeConnections := none, averageLatency := some 0 },
   { endpoint := 3, weight := 1, hashKey := 3
     activeConnections := some 1, averageLatency := some 0 }]

/-- Backend with both metric queries unanswered, used by witnesses below. -/
def bareBackend (ep : Nat) : Backend :=
  { endpoint := ep, weight := 1, hashKey := ep
    activeConnections := none, averageLatency := none }

/-- Embedding of `LatencyEWMA::record_latency`
(fastest_server.rs lines 82 to 95) and equally of
`BackendMetrics::record_latency` (backend_metrics.rs lines 20 to 30): when
the stored average is zero the sample is stored directly, otherwise the
EWMA recurrence applies. Values are exact rationals standing for the float
contents. -/
def recordLatency (alpha avg x : ℚ) : ℚ :=
  if avg = 0 then x else alpha * x + (1 - alpha) * avg

/-- Average after a sequence of samples, starting from the constructor's
initial average `0.0` (`LatencyEWMA::new(0.0)`, `BackendMetrics::new`). -/
def latencyAfter (alpha : ℚ) (samples : List ℚ) : ℚ :=
  samples.foldl (recordLatency alpha) 0

/-- Spec-side definition for claim C7, following the claim's words: after
the first sample the average equals that sample, and every subsequent
sample applies the recurrence unconditionally. To be compared against
`latencyAfter`. -/
def claimEwmaAfter (alpha : ℚ) : List ℚ → ℚ
  | [] => 0
  | x :: rest => rest.foldl (fun avg y => alpha * y + (1 - alpha) * avg) x

/-- Width of `usize`/`u64` on the target platform. -/
def usizeSize : Nat := 2 ^ 64

/-- Embedding of `BackendMetrics::increment_connection_count`
(backend_metrics.rs lines 32 to 34): `fetch_add(1, Relaxed)` wraps at the
`usize` width. -/
def incrementConnectionCount (count : Nat) : Nat :=
  (count + 1) % usizeSize

/-- Embedding of `BackendMetrics::decrement_connection_count`
(backend_metrics.rs lines 36 to 38): `fetch_sub(1, Relaxed)` on `AtomicUsize`
wraps at the `usize` width, so subtracting one is adding `2^64 - 1` mod
`2^64`. -/
def decrementConnectionCount (count : Nat) : Nat :=
  (count + (usizeSize - 1)) % usizeSize

/-- Embedding of `ActiveConnections::decrement_active_connections`
(fewest_connections.rs lines 94 to 96), identical wrapping `fetch_sub`. -/
def decrementActiveConnections (count : Nat) : Nat :=
  (count + (usizeSize - 1)) % usizeSize

/-- Spec-side definition for claim C4, following the claim's words: the
decrement saturates at zero and never underflows. -/
def claimSaturatingDecrement (count : Nat) : Nat := count - 1

/-- Embedding of the `WeightedSelector` fields (weighted.rs lines 25 to 30,
identically utils.rs lines 30 to 35): the backing backend array and the
expanded index array, one entry per weight unit. -/
structure WeightedSelectorData where
  backends : List Backend
  weighted : List Nat
  deriving Repr

/-- Embedding of the expansion loop of `WeightedSelector::new` (weighted.rs
lines 40 to 44): for each backend, its index is pushed `weight` times. -/
def expandWeightedFrom (i : Nat) : List Backend → List Nat
  | [] => []
  | b :: rest => List.replicate b.weight i ++ expandWeightedFrom (i + 1) rest

/-- Embedding of `WeightedSelector::new` (weighted.rs lines 33 to 50): the
`assert!` that the number of backends is at most `u16::MAX` is modelled as
`none` (panic); otherwise the selector with the expanded index array is
built. No check of the total weight expansion is performed. -/
def weightedSelectorNew (backends : List Backend) : Option WeightedSelectorData :=
  if backends.length ≤ 65535 then
    some { backends := backends, weighted := expandWeightedFrom 0 backends }
  else none

/-- Total weight expansion of a backend set. -/
def sumWeights (backends : List Backend) : Nat :=
  (backends.map Backend.weight).sum

/-- Two backends whose weights expand to 80000 entries, well above 2^16. -/
def heavyBackends : List Backend :=
  [{ endpoint := 1, weight := 40000, hashKey := 1
     activeConnections := none, averageLatency := none },
   { endpoint := 2, weight := 40000, hashKey := 2
     activeConnections := none, averageLatency := none }]

/-- FNV-1a 64-bit offset basis (the `fnv` crate's `FnvHasher` default). -/
def fnvOffsetBasis : Nat := 0xcbf29ce484222325

/-- FNV-1a 64-bit prime. -/
def fnvPrime : Nat := 0x100000001b3

/-- One FNV-1a step: xor in the byte, multiply by the prime, wrap at 64
bits. -/
def fnv1aStep (hash byte : Nat) : Nat :=
  ((hash ^^^ byte) * fnvPrime) % usizeSize

/-- FNV-1a 64-bit hash of a byte string, the `SelectionAlgorithm` used by
the `FNVHash` strategy (strategy/mod.rs lines 92 to 104 instantiated at
`FnvHasher`). -/
def fnv64 (bytes : List Nat) : Nat :=
  bytes.foldl fnv1aStep fnvOffsetBasis

/-- Little-endian byte decomposition of a `u64`, the embedding of
`u64::to_le_bytes` used by the fallback re-hash in
`WeightedIterator::next`. -/
def u64LeBytes (n : Nat) : List Nat :=
  [n % 256, n / 2 ^ 8 % 256, n / 2 ^ 16 % 256, n / 2 ^ 24 % 256,
   n / 2 ^ 32 % 256, n / 2 ^ 40 % 256, n / 2 ^ 48 % 256, n / 2 ^ 56 % 256]

/-- State of a `WeightedIterator` (weighted.rs lines 64 to 69): the
unbounded index seed and the first-pick flag. -/
structure WeightedIterState where
  index : Nat
  first : Bool
  deriving DecidableEq, Repr

/-- Embedding of `WeightedIterator::new` (weighted.rs lines 73 to 79) for
the FNV algorithm: the starting index is the hash of the key and the
first-pick flag is set. -/
def weightedIterNew (key : List Nat) : WeightedIterState :=
  { index := fnv64 key, first := true }

/-- Embedding of `WeightedIterator::next` (weighted.rs lines 82 to 103)
for the FNV algorithm: short-circuit on an empty backend array; the first
pick reads the weighted index array at `index mod len`; every fallback
re-hashes the little-endian bytes of the current index and steps over the
unique backend array at the new index mod its length. Out-of-bounds reads
(impossible for selectors built by `WeightedSelector::new`) model the Rust
indexing panic as `none`. -/
def weightedIterNext (sel : WeightedSelectorData) (st : WeightedIterState) :
    Option (Backend × WeightedIterState) :=
  if sel.backends.isEmpty then none
  else if st.first then
    match sel.weighted[st.index % sel.weighted.length]? with
    | some i =>
        match sel.backends[i]? with
        | some b => some (b, { index := st.index, first := false })
        | none => none
    | none => none
  else
    let index := fnv64 (u64LeBytes st.index)
    match sel.backends[index % sel.backends.length]? with
    | some b => some (b, { index := index, first := false })
    | none => none

/-- Embedding of `FewestConnectionsIter::next` (fewest_connections.rs lines
81 to 87) and identically `FastestServerIter::next` (fastest_server.rs
lines 74 to 80): read the selector's backend array at the cursor and
advance the cursor. -/
def sortedArrayIterNext (backends : List Backend) (index : Nat) :
    Option (Backend × Nat) :=
  match backends[index]? with
  | some b => some (b, index + 1)
  | none => none

/-- Embedding of `FewestConnectionsIter::new` (fewest_connections.rs lines
72 to 78): the key is ignored and the cursor starts at zero. -/
def fewestConnectionsIterStart (_key : List Nat) : Nat := 0

/-- Embedding of `FastestServerSelector::iter` (fastest_server.rs lines 61
to 66): the key is ignored and the cursor starts at zero. -/
def fastestServerIterStart (_key : List Nat) : Nat := 0

/-- Embedding of the `UniqueIterator` state (utils.rs lines 112 to 134):
the wrapped iterator (as a step function plus current state), the set of
already-yielded hash keys, the iteration budget and the steps taken. -/
structure UniqueIterator (σ : Type) where
  next : σ → Option (Backend × σ)
  state : σ
  seen : List Nat
  maxIterations : Nat
  steps : Nat

/-- Embedding of `UniqueIterator::new` (utils.rs lines 127 to 134). -/
def UniqueIterator.new {σ : Type} (next : σ → Option (Backend × σ)) (state : σ)
    (maxIterations : Nat) : UniqueIterator σ :=
  { next := next, state := state, seen := [], maxIterations := maxIterations, steps := 0 }

/-- Embedding of the loop body of `UniqueIterator::get_next` (utils.rs
lines 136 to 151): advance the inner iterator; once the budget of steps is
spent return `None`; count the step; skip already-seen hash keys, otherwise
record and return the backend. The fuel argument only bounds the recursion;
`getNext` below supplies fuel that the budget check provably never
exhausts, so the fuelled function agrees with the Rust `while let` loop. -/
def getNextAux {σ : Type} : Nat → UniqueIterator σ → Option Backend × UniqueIterator σ
  | 0, it => (none, it)
  | fuel + 1, it =>
    match it.next it.state with
    | none => (none, it)
    | some (item, state) =>
        if it.maxIterations ≤ it.steps then (none, it)
        else
          let stepped : UniqueIterator σ :=
            { it with state := state, steps := it.steps + 1 }
          if item.hashKey ∈ stepped.seen then getNextAux fuel stepped
          else (some item, { stepped with seen := item.hashKey :: stepped.seen })

/-- Embedding of `UniqueIterator::get_next`: each loop iteration either
returns or increases `steps`, and the loop returns as soon as
`steps ≥ max_iterations`, so `max_iterations - steps + 1` iterations always
suffice. -/
def getNext {σ : Type} (it : UniqueIterator σ) : Option Backend × UniqueIterator σ :=
  getNextAux (it.maxIterations + 1 - it.steps) it

/-- Repeatedly call `get_next`, collecting the yielded backends until the
first `None`. Each yield consumes at least one unit of the step budget, so
`max_iterations + 1` outer calls always reach the terminating `None`. -/
def collectYields {σ : Type} : Nat → UniqueIterator σ → List Backend
  | 0, _ => []
  | fuel + 1, it =>
    match getNext it with
    | (none, _) => []
    | (some b, it2) => b :: collectYields fuel it2

/-- All backends a fresh-or-used `UniqueIterator` yields before exhaustion. -/
def yields {σ : Type} (it : UniqueIterator σ) : List Backend :=
  collectYields (it.maxIterations + 1) it

/-- Embedding of the loop of `AdaptiveLoadBalancer::select_with`
(adaptive_load_balancer.rs lines 119 to 131): pull from the unique
iterator and return the first backend accepted together with its registry
readiness. -/
def selectWithAux {σ : Type} (accept : Backend → Bool → Bool) (ready : Backend → Bool) :
    Nat → UniqueIterator σ → Option Backend
  | 0, _ => none
  | fuel + 1, it =>
    match getNext it with
    | (none, _) => none
    | (some b, it2) =>
        if accept b (ready b) then some b else selectWithAux accept ready fuel it2

/-- Embedding of `AdaptiveLoadBalancer::select_with`: build the unique
iterator over the selector's per-request iterator with the given budget and
scan for the first accepted backend. The registry readiness lookup
`self.backends.ready(&b)` is passed in as the function `ready`. -/
def selectWith {σ : Type} (next : σ → Option (Backend × σ)) (state : σ)
    (maxIterations : Nat) (ready : Backend → Bool)
    (accept : Backend → Bool → Bool) : Option Backend :=
  selectWithAux accept ready (maxIterations + 1) (UniqueIterator.new next state maxIterations)

/-- Embedding of the default accept function of `AdaptiveLoadBalancer::select`
(adaptive_load_balancer.rs line 109): accept exactly the healthy. -/
def defaultAccept : Backend → Bool → Bool := fun _ healthy => healthy

/-- Two-backend demonstration snapshot with the second backend ready. -/
def demoSnapshot : List Backend := [bareBackend 1, bareBackend 2]

/-- Readiness map for the demonstration: only hash key 2 is ready. -/
def demoReady : Backend → Bool := fun b => b.hashKey == 2

/-- Backends for the C3 counterexample (distinct endpoints and hash keys,
unit weights). -/
def fnvBackendA : Backend :=
  { endpoint := 1, weight := 1, hashKey := 1
    activeConnections := none, averageLatency := none }

/-- Second backend for the C3 counterexample. -/
def fnvBackendB : Backend :=
  { endpoint := 2, weight := 1, hashKey := 2
    activeConnections := none, averageLatency := none }

/-- The FNV weighted selector over the two counterexample backends, exactly
as `WeightedSelector::new` builds it. -/
def fnvSelector : WeightedSelectorData :=
  { backends := [fnvBackendA, fnvBackendB]
    weighted := expandWeightedFrom 0 [fnvBackendA, fnvBackendB] }

/-- Run a sorted-array per-request iterator to exhaustion from a cursor. -/
def seqCollect (backends : List Backend) : Nat → Nat → List Backend
  | 0, _ => []
  | fuel + 1, index =>
    match sortedArrayIterNext backends index with
    | none => []
    | some (b, next) => b :: seqCollect backends fuel next

/-- All backends a sorted-array per-request iterator yields from a starting
cursor (the array length plus one exhausts it). -/
def seqIterAll (backends : List Backend) (start : Nat) : List Backend :=
  seqCollect backends (backends.length + 1) start

/-! Theorems settling the claims, preceded by their helper lemmas. -/

/-- Helper: folding `min` over a list never rises above the seed. -/
theorem foldl_min_le_seed (l : List ℚ) : ∀ a : ℚ, l.foldl min a ≤ a := by
  induction l with
  | nil => intro a; exact le_refl a
  | cons b t ih =>
      intro a
      exact le_trans (ih (min a b)) (min_le_left a b)

/-- Helper: folding `min` over a list never rises above any member. -/
theorem foldl_min_le_of_mem (l : List ℚ) : ∀ (a x : ℚ), x ∈ l → l.foldl min a ≤ x := by
  induction l with
  | nil => intro a x hx; cases hx
  | cons b t ih =>
      intro a x hx
      rcases List.mem_cons.mp hx with h | h
      · subst h
        exact le_trans (foldl_min_le_seed t (min a x)) (min_le_right a x)
      · exact ih (min a b) x h

/-- Helper: with fewer than two backends the latency trigger is off. -/
theorem shouldUseFastestServer_of_short (cfg : DecisionConfig) (B : List Backend)
    (h : B.length < 2) : shouldUseFastestServer cfg B = false := by
  simp [shouldUseFastestServer, h]

/-- Helper: with fewer than two backends the connection trigger is off. -/
theorem shouldUseFewestConnections_of_short (cfg : DecisionConfig) (B : List Backend)
    (h : B.length < 2) : shouldUseFewestConnections cfg B = false := by
  simp [shouldUseFewestConnections, h]

/-- Helper: when every backend leaves the connection query unanswered, the
connection trigger is off (the `filter_map` collects nothing and `reduce`
returns `None`). -/
theorem shouldUseFewestConnections_of_all_none (cfg : DecisionConfig) (B : List Backend)
    (h : ∀ b ∈ B, b.activeConnections = none) :
    shouldUseFewestConnections cfg B = false := by
  unfold shouldUseFewestConnections
  have hnil : B.filterMap Backend.activeConnections = [] := by
    rw [List.filterMap_eq_nil_iff]
    exact h
  rw [hnil]
  split <;> rfl

/-- Helper: when some backend leaves the latency query unanswered, its
`unwrap_or(0.0)` contributes a zero to the min fold, so the `min > 0` guard
fails and the ratio falls back to 1; the trigger is then off provided the
configured latency divergence ratio is at least 1. -/
theorem shouldUseFastestServer_of_missing (cfg : DecisionConfig) (B : List Backend)
    (h : ∃ b ∈ B, b.averageLatency = none) (ht : 1 ≤ cfg.latencyDivergenceRatio) :
    shouldUseFastestServer cfg B = false := by
  unfold shouldUseFastestServer
  by_cases hlen : B.length < 2
  · simp [hlen]
  · obtain ⟨b, hbB, hnone⟩ := h
    have h0 : (0 : ℚ) ∈ B.map (fun b => b.averageLatency.getD 0) := by
      refine List.mem_map.mpr ⟨b, hbB, ?_⟩
      rw [hnone]
      rfl
    have hmn : (B.map (fun b => b.averageLatency.getD 0)).foldl min f32Max ≤ 0 :=
      foldl_min_le_of_mem _ _ _ h0
    have hguard : ¬ (0 < (B.map (fun b => b.averageLatency.getD 0)).foldl min f32Max) :=
      not_lt.mpr hmn
    simp only [hlen, if_false, hguard]
    exact decide_eq_false (not_lt.mpr ht)

/-- Helper: if the connection trigger is off, no branch of the engine
returns `FewestConnections`. -/
theorem evaluateStrategy_ne_fewest (cfg : DecisionConfig) (cur : Adaptive) (B : List Backend)
    (h : shouldUseFewestConnections cfg B = false) :
    evaluateStrategy cfg cur B ≠ Adaptive.FewestConnections := by
  cases cur <;> simp [evaluateStrategy, h] <;> split <;> simp

/-- Helper: if the latency trigger is off, no branch of the engine returns
`FastestServer`. -/
theorem evaluateStrategy_ne_fastest (cfg : DecisionConfig) (cur : Adaptive) (B : List Backend)
    (h : shouldUseFastestServer cfg B = false) :
    evaluateStrategy cfg cur B ≠ Adaptive.FastestServer := by
  cases cur <;> simp [evaluateStrategy, h] <;> split <;> simp

/-- Claim C1, counterexample: with two idle backends (all metrics zero, so
neither trigger fires) and current strategy `FNVHash`, the engine keeps
`FNVHash`, while the claim's description (latency first, then connections,
else the configured default, RoundRobin by default) returns `RoundRobin`.
The claim as stated is therefore false on the code. -/
theorem claim_C1_counterexample :
    evaluateStrategy defaultConfig Adaptive.FNVHash [quietBackend 1, quietBackend 2] =
      Adaptive.FNVHash ∧
    claimEvaluate defaultConfig Adaptive.RoundRobin [quietBackend 1, quietBackend 2] =
      Adaptive.RoundRobin ∧
    Adaptive.FNVHash ≠ Adaptive.RoundRobin := by
  refine ⟨?_, ?_, by simp⟩ <;>
    norm_num [evaluateStrategy, claimEvaluate, shouldUseFastestServer,
      shouldUseFewestConnections, connectionRatioExceeds, defaultConfig, f32Min, f32Max,
      quietBackend, List.filterMap_cons, List.filterMap_nil]

/-- Claim C1, amended: for every configuration, current strategy and backend
snapshot, the engine implements the trigger table of `amendedEvaluate`: from
`FastestServer` the connection trigger is consulted first (both triggers
firing moves to `FewestConnections`), from every other strategy the latency
trigger is consulted first; with neither trigger firing, `FastestServer` and
`FewestConnections` fall back to `RoundRobin` and every other strategy is
returned unchanged. -/
theorem claim_C1 (cfg : DecisionConfig) (cur : Adaptive) (B : List Backend) :
    evaluateStrategy cfg cur B = amendedEvaluate cfg cur B := by
  cases cur <;> rfl

/-- Claim C9: with fewer than two backends neither trigger can fire, so the
engine never returns `FastestServer` or `FewestConnections`; and if the
current strategy is one of those two, it falls back to `RoundRobin`. -/
theorem claim_C9 (cfg : DecisionConfig) (cur : Adaptive) (B : List Backend)
    (h : B.length < 2) :
    evaluateStrategy cfg cur B ≠ Adaptive.FastestServer ∧
    evaluateStrategy cfg cur B ≠ Adaptive.FewestConnections ∧
    ((cur = Adaptive.FastestServer ∨ cur = Adaptive.FewestConnections) →
      evaluateStrategy cfg cur B = Adaptive.RoundRobin) := by
  have h1 := shouldUseFastestServer_of_short cfg B h
  have h2 := shouldUseFewestConnections_of_short cfg B h
  refine ⟨evaluateStrategy_ne_fastest cfg cur B h1,
    evaluateStrategy_ne_fewest cfg cur B h2, ?_⟩
  rintro (rfl | rfl) <;> simp [evaluateStrategy, h1, h2]

/-- Claim C9, witness: the single-backend (here empty) instantiation with
current strategy `FastestServer` concretely falls back to `RoundRobin`. -/
theorem claim_C9_witness :
    evaluateStrategy defaultConfig Adaptive.FastestServer [] = Adaptive.RoundRobin :=
  (claim_C9 defaultConfig Adaptive.FastestServer [] (by decide)).2.2 (Or.inl rfl)

/-- Claim C5, counterexample: `filter_map` in
`should_use_fewest_connections` silently drops the backend whose
`active_connections` query answers `None`, so with counts 2000 and 1 on the
remaining two backends (max 2000 at least the 1000 floor, ratio 2000
exceeding 1.2) the engine still selects `FewestConnections` although a
backend lacks the metric — the very state in which the
`FewestConnections::build_backend_selector` panic branch is reachable. -/
theorem claim_C5_counterexample :
    evaluateStrategy defaultConfig Adaptive.RoundRobin mixedBackends =
      Adaptive.FewestConnections ∧
    ∃ b ∈ mixedBackends, b.activeConnections = none := by
  constructor
  · norm_num [evaluateStrategy, shouldUseFastestServer, shouldUseFewestConnections,
      connectionRatioExceeds, defaultConfig, f32Min, f32Max, mixedBackends,
      List.filterMap_cons, List.filterMap_nil]
  · exact ⟨{ endpoint := 2, weight := 1, hashKey := 2
             activeConnections := none, averageLatency := some 0 },
      by simp [mixedBackends], rfl⟩

/-- Claim C5, amended: the engine never returns `FewestConnections` when the
connection metric is absent on every backend (not merely on some backend);
and it never returns `FastestServer` when some backend's latency query is
unanswered, provided the configured latency divergence ratio is at least 1
(the missing value enters the folds as 0, forcing the fallback ratio 1). -/
theorem claim_C5 (cfg : DecisionConfig) (cur : Adaptive) (B : List Backend) :
    ((∀ b ∈ B, b.activeConnections = none) →
      evaluateStrategy cfg cur B ≠ Adaptive.FewestConnections) ∧
    ((∃ b ∈ B, b.averageLatency = none) → 1 ≤ cfg.latencyDivergenceRatio →
      evaluateStrategy cfg cur B ≠ Adaptive.FastestServer) := by
  constructor
  · intro h
    exact evaluateStrategy_ne_fewest cfg cur B
      (shouldUseFewestConnections_of_all_none cfg B h)
  · intro h ht
    exact evaluateStrategy_ne_fastest cfg cur B
      (shouldUseFastestServer_of_missing cfg B h ht)

/-- Claim C5, witness: on two metric-less backends the amended claim
concretely forbids both dynamic strategies. -/
theorem claim_C5_witness :
    evaluateStrategy defaultConfig Adaptive.RoundRobin [bareBackend 1, bareBackend 2] ≠
      Adaptive.FewestConnections ∧
    evaluateStrategy defaultConfig Adaptive.RoundRobin [bareBackend 1, bareBackend 2] ≠
      Adaptive.FastestServer := by
  refine ⟨(claim_C5 defaultConfig Adaptive.RoundRobin [bareBackend 1, bareBackend 2]).1 ?_,
    (claim_C5 defaultConfig Adaptive.RoundRobin [bareBackend 1, bareBackend 2]).2 ?_ ?_⟩
  · intro b hb
    rcases List.mem_cons.mp hb with rfl | hb
    · rfl
    · rcases List.mem_cons.mp hb with rfl | hb
      · rfl
      · cases hb
  · exact ⟨bareBackend 1, by simp [bareBackend], rfl⟩
  · exact one_le_two

/-- Claim C7, counterexample: with smoothing factor 1/2 and samples 0 then
4, the code stores 4 (the zero average makes the second sample count as a
first sample), while the claim's recurrence yields 1/2·4 + 1/2·0 = 2. All
values are exactly representable floats, so the rational model is exact
here. -/
theorem claim_C7_counterexample :
    latencyAfter (1/2) [0, 4] = 4 ∧ claimEwmaAfter (1/2) [0, 4] = 2 ∧ (4 : ℚ) ≠ 2 := by
  refine ⟨?_, ?_, by norm_num⟩ <;> norm_num [latencyAfter, claimEwmaAfter, recordLatency]

/-- Helper: an average equal to the constant sample value is a fixed point
of `record_latency`. -/
theorem latencyAfter_const_fix (alpha c : ℚ) :
    ∀ n : Nat, (List.replicate n c).foldl (recordLatency alpha) c = c := by
  intro n
  induction n with
  | zero => rfl
  | succ m ih =>
      have hstep : recordLatency alpha c c = c := by
        by_cases hc : c = 0
        · simp [recordLatency, hc]
        · simp only [recordLatency, if_neg hc]
          ring
      simp only [List.replicate_succ, List.foldl_cons, hstep]
      exact ih

/-- Claim C7, amended: the stored average is the sample whenever the
previous average is zero and follows the recurrence otherwise. Hence after
the first sample the average equals that sample; a sequence of only zero
samples leaves the average at its initial value 0; the recurrence of the
claim holds for every sample recorded while the average is nonzero; and a
constant sample sequence pins the average to that constant from the first
sample on. -/
theorem claim_C7 (alpha : ℚ) :
    (∀ x : ℚ, latencyAfter alpha [x] = x) ∧
    (∀ n : Nat, latencyAfter alpha (List.replicate n 0) = 0) ∧
    (∀ avg x : ℚ, avg ≠ 0 →
      recordLatency alpha avg x = alpha * x + (1 - alpha) * avg) ∧
    (∀ (c : ℚ) (n : Nat), 1 ≤ n → latencyAfter alpha (List.replicate n c) = c) := by
  refine ⟨?_, ?_, ?_, ?_⟩
  · intro x
    simp [latencyAfter, recordLatency]
  · intro n
    induction n with
    | zero => rfl
    | succ m ih =>
        simpa [latencyAfter, List.replicate_succ, recordLatency]
          using ih
  · intro avg x h
    simp [recordLatency, h]
  · intro c n hn
    cases n with
    | zero => cases hn
    | succ m =>
        have hfirst : recordLatency alpha 0 c = c := by simp [recordLatency]
        simp only [latencyAfter, List.replicate_succ, List.foldl_cons, hfirst]
        exact latencyAfter_const_fix alpha c m

/-- Claim C7, witness: concrete instantiations of the amended properties at
smoothing factor 1/2. -/
theorem claim_C7_witness :
    recordLatency (1/2) 3 5 = (1/2) * 5 + (1 - 1/2) * 3 ∧
    latencyAfter (1/2) (List.replicate 3 7) = 7 :=
  ⟨(claim_C7 (1/2)).2.2.1 3 5 (by norm_num),
   (claim_C7 (1/2)).2.2.2 7 3 (by norm_num)⟩

/-- Claim C4: evaluating both decrement embeddings at a counter that is
zero. The code wraps to `2^64 - 1` (the `usize` maximum) instead of
saturating at 0 as the claim and the spec require, so one disconnect
callback racing ahead of its connect callback corrupts the counter. -/
theorem claim_C4 :
    decrementConnectionCount 0 = usizeSize - 1 ∧
    decrementActiveConnections 0 = usizeSize - 1 ∧
    claimSaturatingDecrement 0 = 0 ∧
    decrementConnectionCount 0 ≠ claimSaturatingDecrement 0 := by
  refine ⟨?_, ?_, rfl, ?_⟩ <;>
    norm_num [decrementConnectionCount, decrementActiveConnections,
      claimSaturatingDecrement, usizeSize]

/-- Helper: the expanded index array has exactly one entry per weight
unit. -/
theorem length_expandWeightedFrom :
    ∀ (bs : List Backend) (i : Nat), (expandWeightedFrom i bs).length = sumWeights bs := by
  intro bs
  induction bs with
  | nil => intro i; rfl
  | cons b rest ih =>
      intro i
      simp only [expandWeightedFrom, List.length_append, List.length_replicate]
      rw [ih (i + 1)]
      simp [sumWeights]

/-- Claim C6, counterexample: a backend set whose total weight expansion is
80000 > 2^16 is accepted by `WeightedSelector::new` — a selector is built,
no `InvalidConfiguration` error (nor any failure at all) is surfaced. The
claim as stated is therefore false on the code. -/
theorem claim_C6_counterexample :
    sumWeights heavyBackends = 80000 ∧
    2 ^ 16 < sumWeights heavyBackends ∧
    ∃ s, weightedSelectorNew heavyBackends = some s := by
  refine ⟨rfl, by norm_num [sumWeights, heavyBackends], ⟨_, rfl⟩⟩

/-- Claim C6, amended: `WeightedSelector::new` never checks the total
weight expansion; whenever the backend count is at most 65535 it builds a
selector whose expanded index array has exactly `Σ weight_i` entries
(however large), and the only failure is the `assert!` panic when the
backend count itself exceeds 65535. -/
theorem claim_C6 (bs : List Backend) :
    (bs.length ≤ 65535 →
      ∃ s, weightedSelectorNew bs = some s ∧ s.weighted.length = sumWeights bs) ∧
    (65535 < bs.length → weightedSelectorNew bs = none) := by
  constructor
  · intro h
    have hnew : weightedSelectorNew bs =
        some { backends := bs, weighted := expandWeightedFrom 0 bs } := by
      rw [weightedSelectorNew, if_pos h]
    exact ⟨_, hnew, length_expandWeightedFrom bs 0⟩
  · intro h
    rw [weightedSelectorNew, if_neg (not_le.mpr h)]

/-- Claim C6, witness: the two-backend unit-weight set builds a selector
with two expanded entries. -/
theorem claim_C6_witness :
    ∃ s, weightedSelectorNew [quietBackend 1, quietBackend 2] = some s ∧
      s.weighted.length = sumWeights [quietBackend 1, quietBackend 2] :=
  (claim_C6 [quietBackend 1, quietBackend 2]).1 (by decide)

/-- Helper: the `select_with` loop returns exactly the first yielded
backend accepted, i.e. `find?` over the yield sequence of the unique
iterator, fuel for fuel. -/
theorem selectWithAux_eq_find {σ : Type} (accept : Backend → Bool → Bool)
    (ready : Backend → Bool) :
    ∀ (fuel : Nat) (it : UniqueIterator σ),
      selectWithAux accept ready fuel it =
        (collectYields fuel it).find? (fun b => accept b (ready b)) := by
  intro fuel
  induction fuel with
  | zero => intro it; rfl
  | succ f ih =>
      intro it
      simp only [selectWithAux, collectYields]
      rcases hg : getNext it with ⟨ob, it2⟩
      cases ob with
      | none => simp
      | some b =>
          by_cases ha : accept b (ready b)
          · simp [ha, List.find?_cons_of_pos]
          · simp [ha, List.find?_cons_of_neg, ih it2]

/-- Claim C2: under the default accept function, `select_with` never
returns a backend whose registry readiness is false; and it returns some
backend whenever a ready backend occurs among the unique-iterator yields
reachable within the step budget. -/
theorem claim_C2 {σ : Type} (next : σ → Option (Backend × σ)) (state : σ)
    (maxIterations : Nat) (ready : Backend → Bool) :
    (∀ b, selectWith next state maxIterations ready defaultAccept = some b →
      ready b = true) ∧
    ((∃ b ∈ yields (UniqueIterator.new next state maxIterations), ready b = true) →
      (selectWith next state maxIterations ready defaultAccept).isSome = true) := by
  have key : selectWith next state maxIterations ready defaultAccept =
      (yields (UniqueIterator.new next state maxIterations)).find?
        (fun b => defaultAccept b (ready b)) :=
    selectWithAux_eq_find defaultAccept ready (maxIterations + 1)
      (UniqueIterator.new next state maxIterations)
  constructor
  · intro b hb
    rw [key] at hb
    simpa [defaultAccept] using List.find?_some hb
  · rintro ⟨b, hmem, hready⟩
    rw [key]
    rcases hfind : (yields (UniqueIterator.new next state maxIterations)).find?
        (fun b => defaultAccept b (ready b)) with _ | c
    · exfalso
      have := List.find?_eq_none.mp hfind b hmem
      simp [defaultAccept, hready] at this
    · rfl

/-- Claim C2, witness: on the two-backend snapshot whose first backend is
unready, selection concretely succeeds and the backend it returns is
ready. -/
theorem claim_C2_witness :
    (selectWith (sortedArrayIterNext demoSnapshot) 0 5 demoReady defaultAccept).isSome = true ∧
    demoReady (bareBackend 2) = true :=
  ⟨(claim_C2 (sortedArrayIterNext demoSnapshot) 0 5 demoReady).2
      ⟨bareBackend 2, by decide, by decide⟩,
   (claim_C2 (sortedArrayIterNext demoSnapshot) 0 5 demoReady).1 (bareBackend 2) (by decide)⟩

/-- Helper: walking a sorted-array iterator through the `UniqueIterator`
yields precisely the remaining suffix of the array, provided the hash keys
are fresh and distinct and the remaining step budget covers the suffix. -/
theorem collectYields_seq (suf : List Backend) :
    ∀ (bs : List Backend) (i : Nat) (seen : List Nat) (steps mx : Nat),
      bs.drop i = suf →
      (suf.map Backend.hashKey).Nodup →
      (∀ b ∈ suf, b.hashKey ∉ seen) →
      steps + suf.length ≤ mx →
      collectYields (suf.length + 1)
        { next := sortedArrayIterNext bs, state := i, seen := seen,
          maxIterations := mx, steps := steps } = suf := by
  induction suf with
  | nil =>
      intro bs i seen steps mx hdrop _ _ hbound
      have hfe : mx + 1 - steps = (mx - steps) + 1 := by omega
      have hget : bs[i]? = none :=
        List.getElem?_eq_none (List.drop_eq_nil_iff.mp hdrop)
      simp [collectYields, getNext, hfe, getNextAux, sortedArrayIterNext, hget]
  | cons b suf ih =>
      intro bs i seen steps mx hdrop hnodup hseen hbound
      have hget : bs[i]? = some b := by
        have h0 : (bs.drop i)[0]? = some b := by rw [hdrop]; simp
        rw [List.getElem?_drop] at h0
        simpa using h0
      have hdrop2 : bs.drop (i + 1) = suf := by
        have h1 : (bs.drop i).drop 1 = suf := by rw [hdrop]; rfl
        rw [List.drop_drop] at h1
        simpa [Nat.add_comm] using h1
      have hlt : ¬ (mx ≤ steps) := by
        simp only [List.length_cons] at hbound
        omega
      have hfe : mx + 1 - steps = (mx - steps) + 1 := by omega
      have hnotmem : b.hashKey ∉ seen := hseen b (List.mem_cons_self b suf)
      rw [List.map_cons, List.nodup_cons] at hnodup
      have hseen2 : ∀ b2 ∈ suf, b2.hashKey ∉ b.hashKey :: seen := by
        intro b2 hb2 hmem
        rcases List.mem_cons.mp hmem with heq | hmem2
        · exact hnodup.1 (heq ▸ List.mem_map_of_mem Backend.hashKey hb2)
        · exact hseen b2 (List.mem_cons_of_mem b hb2) hmem2
      have hbound2 : steps + 1 + suf.length ≤ mx := by
        simp only [List.length_cons] at hbound
        omega
      have htail := ih bs (i + 1) (b.hashKey :: seen) (steps + 1) mx
        hdrop2 hnodup.2 hseen2 hbound2
      simp only [List.length_cons, collectYields, getNext, hfe, getNextAux,
        sortedArrayIterNext, hget, if_neg hlt, if_neg hnotmem]
      exact congrArg (b :: ·) htail

/-- Claim C3, amended: for the strategies whose per-request iterator walks
the selector's backend array sequentially (`FewestConnections` and
`FastestServer`), exhausting `UniqueIterator(iter(k), L)` over a snapshot
with L backends with pairwise distinct hash keys yields every backend
exactly once, in the array order. For the weighted hash-based iterators the
guarantee fails (see the counterexample), because the budget counts inner
steps and re-hashing may repeat a backend. -/
theorem claim_C3 (bs : List Backend) (hnodup : (bs.map Backend.hashKey).Nodup) :
    yields (UniqueIterator.new (sortedArrayIterNext bs) 0 bs.length) = bs := by
  have h := collectYields_seq bs bs 0 [] 0 bs.length rfl hnodup
    (by intro b _ hmem; cases hmem) (by omega)
  simpa [yields, UniqueIterator.new] using h

/-- Claim C3, witness: the three-backend snapshot is covered exactly once
by the budget-3 unique iteration. -/
theorem claim_C3_witness :
    yields (UniqueIterator.new
        (sortedArrayIterNext [bareBackend 1, bareBackend 2, bareBackend 3]) 0
        [bareBackend 1, bareBackend 2, bareBackend 3].length) =
      [bareBackend 1, bareBackend 2, bareBackend 3] :=
  claim_C3 [bareBackend 1, bareBackend 2, bareBackend 3] (by decide)

/-- Claim C3, counterexample: for the FNVHash strategy over two backends
and the one-byte key 97 (ASCII "a"), both the first pick and the first
fallback re-hash land on the first backend (both FNV-1a values are even),
and each inner step consumes the budget of two, so iterating the
`UniqueIterator` with budget two to exhaustion yields only one of the two
backends: coverage fails. -/
theorem claim_C3_counterexample :
    weightedSelectorNew [fnvBackendA, fnvBackendB] = some fnvSelector ∧
    yields (UniqueIterator.new (weightedIterNext fnvSelector) (weightedIterNew [97]) 2) =
      [fnvBackendA] ∧
    fnvBackendB ∉ [fnvBackendA] := by
  exact ⟨rfl, by decide, by decide⟩

/-- Claim C10: the `FewestConnections` and `FastestServer` per-request
iterators ignore the selection key — for any two keys the iterators start
at the same cursor and yield exactly the same backends in the same order. -/
theorem claim_C10 (sel : List Backend) (k1 k2 : List Nat) :
    fewestConnectionsIterStart k1 = fewestConnectionsIterStart k2 ∧
    seqIterAll sel (fewestConnectionsIterStart k1) =
      seqIterAll sel (fewestConnectionsIterStart k2) ∧
    fastestServerIterStart k1 = fastestServerIterStart k2 ∧
    seqIterAll sel (fastestServerIterStart k1) =
      seqIterAll sel (fastestServerIterStart k2) :=
  ⟨rfl, rfl, rfl, rfl⟩

end Routini
